import Mathlib

/-!
Verification of the do-FANN SIMD dispatch engine (`src/simd/mod.rs`) and
memory-management engine (`src/memory_manager.rs`) against their
natural-language specification.

Modelling conventions:
* `f32` values are modelled by `ℤ`.  Every numeric scenario proved below uses
  only small integers, whose `f32` arithmetic (add, mul, fused-multiply-add)
  is exact, so the modelled results coincide with the `f32` results.
* `usize` is modelled by `ℕ`; saturating operations cap at `2^64 - 1` exactly
  as `usize::saturating_mul / saturating_add` do.
* Rust slice indexing panics when out of bounds; the embedding returns
  `Option` values, with `none` standing for a panic.
* `HashMap` is modelled by an association list with unique keys; `Vec` by
  `List` in the same element order (`Vec::pop` removes the last element,
  `Vec::remove(0)` the first).
* Pointer addresses are not part of the data model, so the outcome of the
  `check_alignment` calls of a dispatcher operation is abstracted into one
  boolean parameter `aligned` (all base-pointer alignment checks pass or at
  least one fails); `#[cfg(target_arch = ...)]`-conditional compilation is
  modelled by a `TargetArch` parameter.
* `std::time::Instant` fields (`last_access`, `last_collection`) are omitted:
  no claim depends on them and wall-clock time has no shallow embedding.
-/

/-! ## CPU feature detection (`CpuFeatures`, `SimdLevel`) -/

/-- `SimdLevel` from `src/simd/mod.rs`: the SIMD instruction-set tiers, in the
source's discriminant order. -/
inductive SimdLevel where
  | Scalar
  | Neon
  | Sse42
  | Avx2
  | Avx2FMA
  | Avx512F
  | Avx512VNNI
deriving DecidableEq, Repr

/-- `CpuFeatures`: the fixed record of detected hardware-feature flags. -/
structure CpuFeatures where
  has_avx2 : Bool
  has_avx512f : Bool
  has_avx512vnni : Bool
  has_fma : Bool
  has_sse42 : Bool
  has_neon : Bool
deriving DecidableEq, Repr

/-- `CpuFeatures::best_simd_level`: the descending if-else chain choosing the
best available SIMD level. -/
def CpuFeatures.best_simd_level (f : CpuFeatures) : SimdLevel :=
  if f.has_avx512vnni then .Avx512VNNI
  else if f.has_avx512f then .Avx512F
  else if f.has_avx2 && f.has_fma then .Avx2FMA
  else if f.has_avx2 then .Avx2
  else if f.has_sse42 then .Sse42
  else if f.has_neon then .Neon
  else .Scalar

/-- Modelled from the spec: the amended tier-selection rule — the first level,
in strictly descending order, whose own flag test passes (`Avx512VNNI` tests
only the VNNI flag, `Avx2FMA` tests `avx2 && fma`), defaulting to `Scalar`.
Used to compare the source's `best_simd_level` with the spec's words. -/
def bestTierSpec (f : CpuFeatures) : SimdLevel :=
  match [(SimdLevel.Avx512VNNI, f.has_avx512vnni),
         (SimdLevel.Avx512F, f.has_avx512f),
         (SimdLevel.Avx2FMA, f.has_avx2 && f.has_fma),
         (SimdLevel.Avx2, f.has_avx2),
         (SimdLevel.Sse42, f.has_sse42),
         (SimdLevel.Neon, f.has_neon)].find? (fun p => p.2) with
  | some p => p.1
  | none => SimdLevel.Scalar

/-! ## Matmul safety checks (`SimdSafety`) -/

/-- `usize::MAX` on a 64-bit target. -/
def USIZE_MAX : ℕ := 2 ^ 64 - 1

/-- `usize::saturating_mul`. -/
def satMul (a b : ℕ) : ℕ := min (a * b) USIZE_MAX

/-- `usize::saturating_add`. -/
def satAdd (a b : ℕ) : ℕ := min (a + b) USIZE_MAX

/-- `SimdSafety::validate_matrix_dims` as a boolean: `true` iff the check
returns `Ok` (all dimensions non-zero and the saturating index bound fits in
`usize::MAX / size_of::<f32>()`). -/
def validateMatrixDimsOk (m n k : ℕ) : Bool :=
  !(decide (m = 0) || decide (n = 0) || decide (k = 0)) &&
    !(decide (satAdd (satMul m k) (satMul k n) > USIZE_MAX / 4))

/-- `SimdSafety::check_bounds` as a boolean: `true` iff the check fails
(checking enabled and the buffer is shorter than required). -/
def checkBoundsFails (enableBoundsCheck : Bool) (len required : ℕ) : Bool :=
  enableBoundsCheck && decide (len < required)

/-! ## List helpers mirroring Rust loop and slice primitives -/

/-- `(s..e).step_by(bs)`: the list `s, s+bs, s+2*bs, ...` below `e`
(empty when `bs = 0`, which in Rust would panic; no modelled call uses 0). -/
def rangeStep (s e bs : ℕ) : List ℕ :=
  if bs = 0 then [] else (List.range ((e - s + bs - 1) / bs)).map (fun i => s + i * bs)

/-- `slice::fill(0.0)`: overwrite every element with zero, keeping the length. -/
def fillZero (c : List ℤ) : List ℤ := c.map fun _ => (0 : ℤ)

/-- Bounds-checked write `l[i] = v`; `none` models the Rust index panic. -/
def setAt (l : List ℤ) (i : ℕ) (v : ℤ) : Option (List ℤ) :=
  if i < l.length then some (l.set i v) else none

/-! ## Matmul kernels (`matmul_scalar`, `matmul_avx512/avx2/neon`) -/

/-- The inner dot-product accumulation shared by all matmul kernels:
`Σ_{k_idx ∈ [kb, ke)} a[i*k + k_idx] * b[k_idx*n + j]`, accumulated in
increasing `k_idx` order, failing (`none`) on any out-of-bounds read. -/
def dotAcc (a b : List ℤ) (i k n j kb ke : ℕ) : Option ℤ :=
  (List.range' kb (ke - kb)).foldlM
    (fun s kidx => do
      let av ← a[i * k + kidx]?
      let bv ← b[kidx * n + j]?
      pure (s + av * bv)) (0 : ℤ)

/-- `CpuSimdOps::matmul_scalar`: zero `C`, then run the cache-blocked triple
loop, adding each tile's partial dot products into `C`. -/
def matmulScalar (bs : ℕ) (a b c : List ℤ) (m n k : ℕ) : Option (List ℤ) :=
  (rangeStep 0 m bs).foldlM (fun c1 ib =>
    (rangeStep 0 n bs).foldlM (fun c2 jb =>
      (rangeStep 0 k bs).foldlM (fun c3 kb =>
        let ie := min (ib + bs) m
        let je := min (jb + bs) n
        let ke := min (kb + bs) k
        (List.range' ib (ie - ib)).foldlM (fun c4 i =>
          (List.range' jb (je - jb)).foldlM (fun c5 j => do
            let sum ← dotAcc a b i k n j kb ke
            let cur ← c5[i * n + j]?
            setAt c5 (i * n + j) (cur + sum)) c4) c3) c2) c1) (fillZero c)

/-- The vectorized blocked matmul kernels (`matmul_avx512`, `matmul_avx2`,
`matmul_neon`), which differ only in `SIMD_WIDTH` (16 / 8 / 4): full-width
tiles accumulate one lane per output column (lanewise FMA in increasing
`k_idx` order, then a vector load/add/store on `C`), and the tile remainder
is handled by the scalar code path. Over exact arithmetic each lane performs
the same accumulation as `dotAcc`. -/
def matmulVec (w bs : ℕ) (a b c : List ℤ) (m n k : ℕ) : Option (List ℤ) :=
  (rangeStep 0 m bs).foldlM (fun c1 ib =>
    (rangeStep 0 n bs).foldlM (fun c2 jb =>
      (rangeStep 0 k bs).foldlM (fun c3 kb =>
        let ie := min (ib + bs) m
        let je := min (jb + bs) n
        let ke := min (kb + bs) k
        (List.range' ib (ie - ib)).foldlM (fun c4 i =>
          (rangeStep jb je w).foldlM (fun c5 j =>
            let remaining := min (je - j) w
            if remaining = w then
              (List.range w).foldlM (fun c6 lane => do
                let sum ← dotAcc a b i k n (j + lane) kb ke
                let cur ← c6[i * n + (j + lane)]?
                setAt c6 (i * n + (j + lane)) (cur + sum)) c5
            else
              (List.range' j remaining).foldlM (fun c6 jidx => do
                let sum ← dotAcc a b i k n jidx kb ke
                let cur ← c6[i * n + jidx]?
                setAt c6 (i * n + jidx) (cur + sum)) c5) c4) c3) c2) c1)
    (fillZero c)

/-! ## The matmul dispatcher (`SimdMatrixOps::matmul` for `CpuSimdOps`) -/

/-- The `#[cfg(target_arch = ...)]` compilation target: which vector match
arms of the dispatcher exist. -/
inductive TargetArch where
  | x86_64
  | aarch64
  | other
deriving DecidableEq, Repr

/-- `CpuSimdOps::matmul`: validate dimensions, bounds-check the three buffers
(each failure degrades to `matmul_scalar`), then dispatch on the current SIMD
level — vector levels run their kernel when the base-pointer alignment checks
pass (`aligned = true`) and degrade to scalar otherwise; levels without a
compiled kernel for the target fall through to scalar. -/
def matmulDispatch (bs : ℕ) (enableBoundsCheck : Bool) (arch : TargetArch)
    (lvl : SimdLevel) (aligned : Bool) (a b c : List ℤ) (m n k : ℕ) :
    Option (List ℤ) :=
  if !validateMatrixDimsOk m n k then matmulScalar bs a b c m n k
  else if checkBoundsFails enableBoundsCheck a.length (m * k) then
    matmulScalar bs a b c m n k
  else if checkBoundsFails enableBoundsCheck b.length (k * n) then
    matmulScalar bs a b c m n k
  else if checkBoundsFails enableBoundsCheck c.length (m * n) then
    matmulScalar bs a b c m n k
  else
    match arch, lvl with
    | .x86_64, .Avx512F | .x86_64, .Avx512VNNI =>
      if aligned then matmulVec 16 bs a b c m n k else matmulScalar bs a b c m n k
    | .x86_64, .Avx2 | .x86_64, .Avx2FMA =>
      if aligned then matmulVec 8 bs a b c m n k else matmulScalar bs a b c m n k
    | .aarch64, .Neon =>
      if aligned then matmulVec 4 bs a b c m n k else matmulScalar bs a b c m n k
    | _, _ => matmulScalar bs a b c m n k

/-! ## Matvec kernels and dispatcher (`matvec_scalar`, `matvec_avx512/avx2/neon`) -/

/-- `CpuSimdOps::matvec_scalar`: `y[i] = Σ_j a[i*n+j] * x[j]` for each row. -/
def matvecScalar (a x y : List ℤ) (m n : ℕ) : Option (List ℤ) :=
  (List.range m).foldlM (fun y1 i => do
    let sum ← (List.range n).foldlM (fun s j => do
      let av ← a[i * n + j]?
      let xv ← x[j]?
      pure (s + av * xv)) (0 : ℤ)
    setAt y1 i sum) y

/-- The vectorized matvec kernels (`matvec_avx512/avx2/neon`, widths 16/8/4):
per row, `n / w` full chunks accumulate lanewise into a `w`-lane vector
accumulator, a horizontal reduction sums the lanes in lane order, the scalar
remainder is folded in, and the result is stored to `y[i]`. -/
def matvecVec (w : ℕ) (a x y : List ℤ) (m n : ℕ) : Option (List ℤ) :=
  (List.range m).foldlM (fun y1 i => do
    let chunks := n / w
    let sumVec ← (List.range chunks).foldlM (fun (sv : List ℤ) chunk =>
        (List.range w).mapM (fun lane => do
          let av ← a[i * n + (chunk * w + lane)]?
          let xv ← x[chunk * w + lane]?
          let cur ← sv[lane]?
          pure (cur + av * xv))) (List.replicate w (0 : ℤ))
    let horiz := sumVec.sum
    let sum ← (List.range' (chunks * w) (n - chunks * w)).foldlM (fun s j => do
      let av ← a[i * n + j]?
      let xv ← x[j]?
      pure (s + av * xv)) horiz
    setAt y1 i sum) y

/-- `SimdMatrixOps::matvec` for `CpuSimdOps`: zero dimensions are an early
return leaving `y` untouched; a failed bounds check degrades to
`matvec_scalar`; otherwise dispatch on the level as in `matmul`. -/
def matvecDispatch (enableBoundsCheck : Bool) (arch : TargetArch)
    (lvl : SimdLevel) (aligned : Bool) (a x y : List ℤ) (m n : ℕ) :
    Option (List ℤ) :=
  if m = 0 ∨ n = 0 then some y
  else if checkBoundsFails enableBoundsCheck a.length (m * n) then
    matvecScalar a x y m n
  else if checkBoundsFails enableBoundsCheck x.length n then
    matvecScalar a x y m n
  else if checkBoundsFails enableBoundsCheck y.length m then
    matvecScalar a x y m n
  else
    match arch, lvl with
    | .x86_64, .Avx512F | .x86_64, .Avx512VNNI =>
      if aligned then matvecVec 16 a x y m n else matvecScalar a x y m n
    | .x86_64, .Avx2 | .x86_64, .Avx2FMA =>
      if aligned then matvecVec 8 a x y m n else matvecScalar a x y m n
    | .aarch64, .Neon =>
      if aligned then matvecVec 4 a x y m n else matvecScalar a x y m n
    | _, _ => matvecScalar a x y m n

/-! ## Bias addition (`add_bias_scalar`, `add_bias_avx512/avx2/neon`) -/

/-- `CpuSimdOps::add_bias_scalar`: `matrix[i*cols+j] += bias[j]` in place. -/
def addBiasScalar (mat bias : List ℤ) (rows cols : ℕ) : Option (List ℤ) :=
  (List.range rows).foldlM (fun m1 i =>
    (List.range cols).foldlM (fun m2 j => do
      let cur ← m2[i * cols + j]?
      let bv ← bias[j]?
      setAt m2 (i * cols + j) (cur + bv)) m1) mat

/-- The vectorized bias-addition kernels (widths 16/8/4): per row, full
`w`-wide chunks do a lanewise vector add, the tail is handled scalar. -/
def addBiasVec (w : ℕ) (mat bias : List ℤ) (rows cols : ℕ) : Option (List ℤ) :=
  (List.range rows).foldlM (fun m1 i => do
    let chunks := cols / w
    let m2 ← (List.range chunks).foldlM (fun m2 chunk =>
      (List.range w).foldlM (fun m3 lane => do
        let cur ← m3[i * cols + (chunk * w + lane)]?
        let bv ← bias[chunk * w + lane]?
        setAt m3 (i * cols + (chunk * w + lane)) (cur + bv)) m2) m1
    (List.range' (chunks * w) (cols - chunks * w)).foldlM (fun m3 j => do
      let cur ← m3[i * cols + j]?
      let bv ← bias[j]?
      setAt m3 (i * cols + j) (cur + bv)) m2) mat

/-- `SimdMatrixOps::add_bias` for `CpuSimdOps`: zero dimensions are an early
return leaving the matrix untouched; a failed bounds check degrades to
`add_bias_scalar`; otherwise dispatch on the level. -/
def addBiasDispatch (enableBoundsCheck : Bool) (arch : TargetArch)
    (lvl : SimdLevel) (aligned : Bool) (mat bias : List ℤ) (rows cols : ℕ) :
    Option (List ℤ) :=
  if rows = 0 ∨ cols = 0 then some mat
  else if checkBoundsFails enableBoundsCheck mat.length (rows * cols) then
    addBiasScalar mat bias rows cols
  else if checkBoundsFails enableBoundsCheck bias.length cols then
    addBiasScalar mat bias rows cols
  else
    match arch, lvl with
    | .x86_64, .Avx512F | .x86_64, .Avx512VNNI =>
      if aligned then addBiasVec 16 mat bias rows cols
      else addBiasScalar mat bias rows cols
    | .x86_64, .Avx2 | .x86_64, .Avx2FMA =>
      if aligned then addBiasVec 8 mat bias rows cols
      else addBiasScalar mat bias rows cols
    | .aarch64, .Neon =>
      if aligned then addBiasVec 4 mat bias rows cols
      else addBiasScalar mat bias rows cols
    | _, _ => addBiasScalar mat bias rows cols

/-! ## Association-list model of `HashMap` -/

/-- `HashMap::get`: look up a key in an association list. -/
def alookup {β : Type} (k : String) : List (String × β) → Option β
  | [] => none
  | (k', v) :: t => if k' = k then some v else alookup k t

/-- `HashMap::remove`: drop the entry with the given key (on the unique-key
lists maintained by all operations below this removes at most one entry). -/
def aremove {β : Type} (k : String) (l : List (String × β)) : List (String × β) :=
  l.filter (fun p => p.1 != k)

/-- `HashMap::insert`: replace the value at `k` if present, else add an entry. -/
def ainsert {β : Type} (k : String) (v : β) : List (String × β) → List (String × β)
  | [] => [(k, v)]
  | (k', v') :: t => if k' = k then (k, v) :: t else (k', v') :: ainsert k v t

/-! ## Garbage collector (`GarbageCollector`) -/

/-- `GarbageCollector`: per-key reference counts plus the pending list
(`marked_for_gc`) and the batching threshold (the `last_collection` timestamp
is omitted — see the header). -/
structure GarbageCollector where
  refCounts : List (String × ℕ)
  markedForGc : List String
  collectionThreshold : ℕ
deriving Repr

/-- `GarbageCollector::new`. -/
def GarbageCollector.new (threshold : ℕ) : GarbageCollector := ⟨[], [], threshold⟩

/-- `GarbageCollector::inc_ref`: `entry(key).or_insert(0)` then `+= 1`. -/
def GarbageCollector.inc_ref (gc : GarbageCollector) (key : String) :
    GarbageCollector :=
  match alookup key gc.refCounts with
  | some c => { gc with refCounts := ainsert key (c + 1) gc.refCounts }
  | none => { gc with refCounts := ainsert key 1 gc.refCounts }

/-- `GarbageCollector::dec_ref`: decrement a present, positive count; when it
reaches zero, push the key onto the pending list. -/
def GarbageCollector.dec_ref (gc : GarbageCollector) (key : String) :
    GarbageCollector :=
  match alookup key gc.refCounts with
  | none => gc
  | some c =>
    if 0 < c then
      if c - 1 = 0 then
        { gc with refCounts := ainsert key (c - 1) gc.refCounts,
                  markedForGc := gc.markedForGc ++ [key] }
      else { gc with refCounts := ainsert key (c - 1) gc.refCounts }
    else gc

/-- Remove every listed key from the reference table (`for key ... remove`). -/
def removeKeys {β : Type} (keys : List String) (m : List (String × β)) :
    List (String × β) :=
  keys.foldl (fun acc k => aremove k acc) m

/-- `GarbageCollector::collect_garbage`: once the pending list has reached the
threshold, return it, remove its keys from the table, and clear it; below the
threshold return nothing and change nothing. -/
def GarbageCollector.collect_garbage (gc : GarbageCollector) :
    List String × GarbageCollector :=
  if gc.collectionThreshold ≤ gc.markedForGc.length then
    (gc.markedForGc,
     { gc with refCounts := removeKeys gc.markedForGc gc.refCounts,
               markedForGc := [] })
  else ([], gc)

/-- `GarbageCollector::force_collect`: sweep every key whose current count is
zero, regardless of the threshold, and clear the pending list. -/
def GarbageCollector.force_collect (gc : GarbageCollector) :
    List String × GarbageCollector :=
  let collected := (gc.refCounts.filter (fun p => p.2 == 0)).map Prod.fst
  (collected,
   { gc with refCounts := removeKeys collected gc.refCounts, markedForGc := [] })

/-! ## Memory pool (`MemoryPool`) -/

/-- `MemoryPool<T>`: free-list of returned buffers plus the outstanding count. -/
structure MemoryPool (T : Type) where
  available : List (List T)
  allocatedCount : ℕ
  bufferSize : ℕ
  name : String

/-- `Vec::pop`: remove and return the last element. -/
def vecPop {α : Type} : List α → Option (List α × α)
  | [] => none
  | [a] => some ([], a)
  | a :: b :: t =>
    match vecPop (b :: t) with
    | some (r, x) => some (a :: r, x)
    | none => none

/-- `Vec::clear`. -/
def vecClear {α : Type} (_ : List α) : List α := []

/-- `Vec::resize(n, v)`: truncate to `n` or extend with copies of `v`. -/
def rustResize {α : Type} (l : List α) (n : ℕ) (v : α) : List α :=
  if n ≤ l.length then l.take n else l ++ List.replicate (n - l.length) v

/-- `MemoryPool::new`. -/
def MemoryPool.new {T : Type} (name : String) (bufferSize : ℕ) : MemoryPool T :=
  ⟨[], 0, bufferSize, name⟩

/-- `MemoryPool::allocate`: reuse a popped free buffer (`clear` then
`resize(size, T::zero())`) or create a fresh zeroed buffer; always `Ok`. -/
def MemoryPool.allocate {T : Type} [Zero T] (p : MemoryPool T) (size : ℕ) :
    Except String (List T) × MemoryPool T :=
  match vecPop p.available with
  | some (rest, buffer) =>
    (.ok (rustResize (vecClear buffer) size 0),
     { p with available := rest, allocatedCount := p.allocatedCount + 1 })
  | none =>
    (.ok (List.replicate size 0),
     { p with allocatedCount := p.allocatedCount + 1 })

/-- `MemoryPool::deallocate`: push onto the free list; outstanding count
decrements, saturating at zero. -/
def MemoryPool.deallocate {T : Type} (p : MemoryPool T) (buffer : List T) :
    MemoryPool T :=
  { p with available := p.available ++ [buffer],
           allocatedCount := p.allocatedCount - 1 }

/-! ## Memory manager façade (`MemoryManager`, `MemoryStats`) -/

/-- `MemoryStats`; the two `f64` fields are modelled by `ℚ`. -/
structure MemoryStats where
  totalAllocated : ℕ
  available : ℕ
  bufferCount : ℕ
  fragmentationRatio : ℚ
  peakMemory : ℕ
  currentMemory : ℕ
  allocationCount : ℕ
  deallocationCount : ℕ
  averageAllocationSize : ℚ

/-- The `MemoryManager<T>` fields the statistics claims depend on; the
optional arena / leak-detector / cache / prefetcher / collector components and
feature flags are omitted here (the cache and collector are modelled above as
the standalone structures `MemoryManager` merely delegates to). -/
structure MemoryManager (T : Type) where
  pools : List (String × MemoryPool T)
  totalAllocated : ℕ
  peakMemory : ℕ
  stats : MemoryStats

/-- `MemoryManager::new` (statistics-relevant fields). -/
def MemoryManager.new {T : Type} : MemoryManager T :=
  ⟨[], 0, 0, ⟨0, 0, 0, 0, 0, 0, 0, 0, 0⟩⟩

/-- `MemoryManager::update_stats` (`sz` is `size_of::<T>()`): accumulate
`allocated_count` and `available.len()` over all pools, then rebuild the
statistics record; the fragmentation ratio divides available buffers by the
accumulated `allocated_count` sum, with `0.0` on a zero denominator. -/
def MemoryManager.update_stats {T : Type} (sz : ℕ) (mm : MemoryManager T) :
    MemoryManager T :=
  let counts := mm.pools.foldl
    (fun (p : ℕ × ℕ) kv => (p.1 + kv.2.allocatedCount, p.2 + kv.2.available.length))
    (0, 0)
  let bufferCount := counts.1
  let availableBuffers := counts.2
  { mm with stats := {
      totalAllocated := mm.totalAllocated
      available := availableBuffers * sz
      bufferCount := bufferCount
      fragmentationRatio :=
        if 0 < bufferCount then (availableBuffers : ℚ) / (bufferCount : ℚ) else 0
      peakMemory := mm.peakMemory
      currentMemory := mm.totalAllocated
      allocationCount := mm.stats.allocationCount
      deallocationCount := mm.stats.deallocationCount
      averageAllocationSize :=
        if 0 < mm.stats.allocationCount then
          (mm.totalAllocated : ℚ) / (mm.stats.allocationCount : ℚ)
        else 0 } }

/-- `MemoryManager::create_pool`. -/
def MemoryManager.create_pool {T : Type} (mm : MemoryManager T) (name : String)
    (bufferSize : ℕ) : MemoryManager T :=
  { mm with pools := ainsert name (MemoryPool.new name bufferSize) mm.pools }

/-- `MemoryManager::allocate`: delegate to the named pool, update byte totals,
peak, and the allocation counter, then recompute statistics. -/
def MemoryManager.allocate {T : Type} [Zero T] (sz : ℕ) (mm : MemoryManager T)
    (poolName : String) (size : ℕ) :
    Except String (List T × MemoryManager T) :=
  match alookup poolName mm.pools with
  | none => .error "Pool not found"
  | some pool =>
    match pool.allocate size with
    | (.error e, _) => .error e
    | (.ok buffer, pool') =>
      let byteSize := size * sz
      let mm' := { mm with
        pools := ainsert poolName pool' mm.pools
        totalAllocated := mm.totalAllocated + byteSize
        peakMemory := max mm.peakMemory (mm.totalAllocated + byteSize)
        stats := { mm.stats with allocationCount := mm.stats.allocationCount + 1 } }
      .ok (buffer, MemoryManager.update_stats sz mm')

/-- `MemoryManager::deallocate`: return the buffer to the named pool, update
byte totals (saturating) and the deallocation counter, then recompute
statistics. -/
def MemoryManager.deallocate {T : Type} (sz : ℕ) (mm : MemoryManager T)
    (poolName : String) (buffer : List T) : Except String (MemoryManager T) :=
  match alookup poolName mm.pools with
  | none => .error "Pool not found"
  | some pool =>
    let size := buffer.length * sz
    let mm' := { mm with
      pools := ainsert poolName (pool.deallocate buffer) mm.pools
      totalAllocated := mm.totalAllocated - size
      stats := { mm.stats with
        deallocationCount := mm.stats.deallocationCount + 1 } }
    .ok (MemoryManager.update_stats sz mm')

/-- `MemoryManager::get_stats`: the cached point-in-time snapshot. -/
def MemoryManager.get_stats {T : Type} (mm : MemoryManager T) : MemoryStats :=
  mm.stats

/-- Modelled from the spec: "fragmentation ratio = free buffers ÷ total
buffers", total meaning free plus outstanding, `0.0` when there are no
buffers. Used to compare the source's `update_stats` with the spec's words. -/
def fragmentationRatioSpec {T : Type} (mm : MemoryManager T) : ℚ :=
  let free := (mm.pools.map (fun kv => kv.2.available.length)).sum
  let total := free + (mm.pools.map (fun kv => kv.2.allocatedCount)).sum
  if total = 0 then 0 else (free : ℚ) / (total : ℚ)

/-! ## Tensor cache (`SmartCache`) -/

/-- `CachePriority`. -/
inductive CachePriority where
  | low
  | normal
  | high
  | critical
deriving DecidableEq, Repr

/-- `CachedTensor<T>` (the `last_access` timestamp is omitted — see header). -/
structure CachedTensor (T : Type) where
  data : List T
  shape : List ℕ
  accessCount : ℕ
  priority : CachePriority

/-- `SmartCache<T>`: keyed tensor map, byte budget and usage, the LRU access
history (oldest first), and the hit/miss counters. -/
structure SmartCache (T : Type) where
  cache : List (String × CachedTensor T)
  maxSize : ℕ
  currentSize : ℕ
  accessHistory : List String
  hits : ℕ
  misses : ℕ

/-- `SmartCache::new`. -/
def SmartCache.new {T : Type} (maxSize : ℕ) : SmartCache T :=
  ⟨[], maxSize, 0, [], 0, 0⟩

/-- `SmartCache::get`: on a hit bump the access counter, move the key to the
most-recently-used end of the history, and count a hit; on a miss count a
miss. Returns the optional data and the updated cache. -/
def SmartCache.get {T : Type} (c : SmartCache T) (key : String) :
    Option (List T) × SmartCache T :=
  match alookup key c.cache with
  | some tensor =>
    let tensor' := { tensor with accessCount := tensor.accessCount + 1 }
    (some tensor'.data,
     { c with cache := ainsert key tensor' c.cache,
              accessHistory := (c.accessHistory.erase key) ++ [key],
              hits := c.hits + 1 })
  | none => (none, { c with misses := c.misses + 1 })

/-- `SmartCache::evict_lru` (`sz` is `size_of::<T>()`): if the oldest history
key is still cached, remove that entry, subtract its byte size, and drop the
history head; otherwise (empty history, or a stale head no longer in the
map) the state is left completely unchanged. -/
def SmartCache.evict_lru {T : Type} (sz : ℕ) (c : SmartCache T) : SmartCache T :=
  match c.accessHistory with
  | [] => c
  | lruKey :: rest =>
    match alookup lruKey c.cache with
    | some tensor =>
      { c with cache := aremove lruKey c.cache,
               currentSize := c.currentSize - tensor.data.length * sz,
               accessHistory := rest }
    | none => c

/-- The eviction `while` loop of `SmartCache::put`, with explicit fuel.
`none` marks divergence of the source loop: an iteration whose condition
holds but whose `evict_lru` call makes no progress leaves the state — and
hence the condition — unchanged forever. Each productive iteration shortens
the access history, so fuel `accessHistory.length` is always sufficient for
a terminating loop. -/
def SmartCache.evictLoop {T : Type} (sz tensorSize : ℕ) :
    ℕ → SmartCache T → Option (SmartCache T)
  | 0, c =>
    if c.maxSize < c.currentSize + tensorSize ∧ c.cache.isEmpty = false then
      none
    else some c
  | fuel + 1, c =>
    if c.maxSize < c.currentSize + tensorSize ∧ c.cache.isEmpty = false then
      if (SmartCache.evict_lru sz c).accessHistory.length
          < c.accessHistory.length then
        SmartCache.evictLoop sz tensorSize fuel (SmartCache.evict_lru sz c)
      else none
    else some c

/-- `SmartCache::put` (`sz` is `size_of::<T>()`): evict LRU entries while
inserting would exceed the budget and the map is non-empty, then insert
(subtracting the replaced entry's size if the key already existed), add the
tensor's size, and append the key to the history. `none` marks a diverging
eviction loop. -/
def SmartCache.put {T : Type} (sz : ℕ) (c : SmartCache T) (key : String)
    (data : List T) (shape : List ℕ) (priority : CachePriority) :
    Option (SmartCache T) :=
  match SmartCache.evictLoop sz (data.length * sz) c.accessHistory.length c with
  | none => none
  | some c1 =>
    some { c1 with
      cache := ainsert key ⟨data, shape, 0, priority⟩ c1.cache
      currentSize :=
        (match alookup key c1.cache with
         | some oldTensor => c1.currentSize - oldTensor.data.length * sz
         | none => c1.currentSize) + data.length * sz
      accessHistory := c1.accessHistory ++ [key] }

/-- One externally visible `SmartCache` operation. -/
inductive CacheOp (T : Type) where
  | get (key : String)
  | put (key : String) (data : List T) (shape : List ℕ) (priority : CachePriority)

/-- Run a sequence of cache operations; `none` propagates a diverging `put`. -/
def runCacheOps {T : Type} (sz : ℕ) :
    SmartCache T → List (CacheOp T) → Option (SmartCache T)
  | c, [] => some c
  | c, .get key :: rest => runCacheOps sz (SmartCache.get c key).2 rest
  | c, .put key data shape prio :: rest =>
    match SmartCache.put sz c key data shape prio with
    | none => none
    | some c' => runCacheOps sz c' rest

/-- A cache state reachable from `SmartCache::new` through `get`/`put` calls. -/
def CacheReachable {T : Type} (sz : ℕ) (c : SmartCache T) : Prop :=
  ∃ (maxSize : ℕ) (ops : List (CacheOp T)),
    runCacheOps sz (SmartCache.new maxSize) ops = some c

/-! ## General lemmas about the loop and list helpers -/

lemma rangeStep_same (s bs : ℕ) : rangeStep s s bs = [] := by
  unfold rangeStep
  split
  · rfl
  · rename_i h
    have h0 : (s - s + bs - 1) / bs = 0 := by
      have hb : 0 < bs := Nat.pos_of_ne_zero h
      simp only [Nat.sub_self, Nat.zero_add]
      exact Nat.div_eq_of_lt (Nat.sub_lt hb Nat.one_pos)
    rw [h0]
    rfl

lemma foldlM_some_id {α β : Type} (l : List β) (x : α) :
    List.foldlM (fun c (_ : β) => (some c : Option α)) x l = some x := by
  induction l generalizing x with
  | nil => rfl
  | cons h t ih => simpa [List.foldlM] using ih _

lemma matmulScalar_zero_dim (bs : ℕ) (a b c : List ℤ) (m n k : ℕ)
    (h : m = 0 ∨ n = 0 ∨ k = 0) :
    matmulScalar bs a b c m n k = some (fillZero c) := by
  rcases h with h | h | h
  · subst h
    simp [matmulScalar, rangeStep_same]
  · subst h
    simp [matmulScalar, rangeStep_same, foldlM_some_id]
  · subst h
    simp [matmulScalar, rangeStep_same, foldlM_some_id]

lemma validateMatrixDimsOk_zero (m n k : ℕ) (h : m = 0 ∨ n = 0 ∨ k = 0) :
    validateMatrixDimsOk m n k = false := by
  rcases h with h | h | h <;> subst h <;> simp [validateMatrixDimsOk]

/-! ## Claims about the SIMD dispatch engine -/

/-- C7 counterexample: on a capability set whose only flag is AVX-512VNNI the
source's `best_simd_level` still selects the `Avx512VNNI` tier even though the
512-bit base flag `has_avx512f` is absent, contradicting the claim that the
Tier-C+extended tier is selected only when its 512-bit base prerequisite flag
is also set. -/
theorem best_simd_level_vnni_without_avx512f :
    CpuFeatures.best_simd_level
        ⟨false, false, true, false, false, false⟩ = SimdLevel.Avx512VNNI ∧
      (⟨false, false, true, false, false, false⟩ : CpuFeatures).has_avx512f
        = false := by
  decide

/-- C7 (amended): `best_simd_level` always returns a level — `Scalar` when no
flag is set — and it is the first level, in the strictly descending order
VNNI > AVX-512F > AVX2+FMA > AVX2 > SSE4.2 > NEON > Scalar, whose own flag
test passes (`Avx512VNNI` tests only the VNNI flag, without requiring the
512-bit base flag; `Avx2FMA` tests `avx2 && fma`). -/
theorem best_simd_level_first_match (f : CpuFeatures) :
    f.best_simd_level = bestTierSpec f := by
  obtain ⟨a, b, c, d, e, g⟩ := f
  cases a <;> cases b <;> cases c <;> cases d <;> cases e <;> cases g <;> rfl

/-- C1: for `A = [1,2,3,4]`, `B = [5,6,7,8]`, `m = n = k = 2`, the blocked
scalar kernel writes `C = [19,22,43,50]`, and the dispatcher entry point
writes the same result under every SIMD level, on every compilation target,
whether the alignment checks pass or degrade it to scalar, and with bounds
checking on or off (the arithmetic is exact for these integer inputs, so the
`f32` result is the same). -/
theorem matmul_2x2_exact :
    matmulScalar 64 [1, 2, 3, 4] [5, 6, 7, 8] [0, 0, 0, 0] 2 2 2
        = some [19, 22, 43, 50] ∧
      ∀ (arch : TargetArch) (lvl : SimdLevel) (aligned ebc : Bool),
        matmulDispatch 64 ebc arch lvl aligned
            [1, 2, 3, 4] [5, 6, 7, 8] [0, 0, 0, 0] 2 2 2
          = some [19, 22, 43, 50] := by
  refine ⟨by decide, ?_⟩
  intro arch lvl aligned ebc
  cases arch <;> cases lvl <;> cases aligned <;> cases ebc <;> decide

/-- C2: with bounds checking enabled and `C` shorter than `m·n`
(here `m = n = k = 1`, `A = [1]`, `B = [1]`, `C = []`), the bounds check
fails and the call degrades to `matmul_scalar` — but the scalar kernel then
writes `c[0]`, which is out of bounds: the call panics (`none`) instead of
completing, under every SIMD level and target. -/
theorem matmul_short_c_panics (arch : TargetArch) (lvl : SimdLevel)
    (aligned : Bool) :
    matmulDispatch 64 true arch lvl aligned [1] [1] [] 1 1 1 = none := by
  cases arch <;> cases lvl <;> cases aligned <;> decide

/-- C3 counterexample: `matmul` invoked with the zero dimension `m = 0` (and
`C = [5]`) is not a no-op — the failed dimension validation degrades to the
scalar kernel, whose `c.fill(0.0)` overwrites `C` with zeros. -/
theorem matmul_zero_dim_not_noop :
    matmulDispatch 64 true .x86_64 .Scalar true [] [1] [5] 0 1 1 = some [0] ∧
      ([0] : List ℤ) ≠ [5] := by
  constructor
  · have hv : validateMatrixDimsOk 0 1 1 = false :=
      validateMatrixDimsOk_zero 0 1 1 (Or.inl rfl)
    have hz := matmulScalar_zero_dim 64 [] [1] [5] 0 1 1 (Or.inl rfl)
    simpa [matmulDispatch, hv, fillZero] using hz
  · decide

/-- C3 (amended): `matvec` and `add_bias` are genuine no-ops on any zero
dimension (the output buffer is returned unchanged), but `matmul` with a zero
dimension instead falls through its failed dimension validation to the scalar
kernel, which zero-fills `C` (leaving `C` zeroed rather than unchanged). The
matmul part is stated for every positive block size: Rust's `step_by` asserts
a non-zero step at construction, so a zero `config.block_size` would already
panic in the kernel's first loop and is outside the modelled behaviour. -/
theorem zero_dim_dispatch_behaviour :
    (∀ (ebc : Bool) (arch : TargetArch) (lvl : SimdLevel) (aligned : Bool)
       (a x y : List ℤ) (m n : ℕ), m = 0 ∨ n = 0 →
        matvecDispatch ebc arch lvl aligned a x y m n = some y) ∧
      (∀ (ebc : Bool) (arch : TargetArch) (lvl : SimdLevel) (aligned : Bool)
         (mat bias : List ℤ) (rows cols : ℕ), rows = 0 ∨ cols = 0 →
          addBiasDispatch ebc arch lvl aligned mat bias rows cols = some mat) ∧
      ∀ (bs : ℕ) (ebc : Bool) (arch : TargetArch) (lvl : SimdLevel)
        (aligned : Bool) (a b c : List ℤ) (m n k : ℕ), 0 < bs →
        m = 0 ∨ n = 0 ∨ k = 0 →
        matmulDispatch bs ebc arch lvl aligned a b c m n k = some (fillZero c) := by
  refine ⟨?_, ?_, ?_⟩
  · intro ebc arch lvl aligned a x y m n h
    simp [matvecDispatch, h]
  · intro ebc arch lvl aligned mat bias rows cols h
    simp [addBiasDispatch, h]
  · intro bs ebc arch lvl aligned a b c m n k _hbs h
    have hv := validateMatrixDimsOk_zero m n k h
    have hz := matmulScalar_zero_dim bs a b c m n k h
    simp [matmulDispatch, hv, hz]

/-- C3 witness: the amended theorem applied at concrete zero-dimension
inputs for each of the three operations. -/
theorem zero_dim_dispatch_behaviour_witness :
    matvecDispatch true .x86_64 .Avx2 true [] [] [7] 0 3 = some [7] ∧
      addBiasDispatch true .x86_64 .Avx2 true [7] [] 1 0 = some [7] ∧
      matmulDispatch 64 true .x86_64 .Avx2 true [] [1] [5] 0 1 1
        = some (fillZero [5]) := by
  refine ⟨?_, ?_, ?_⟩
  · exact zero_dim_dispatch_behaviour.1 true .x86_64 .Avx2 true [] [] [7] 0 3
      (Or.inl rfl)
  · exact zero_dim_dispatch_behaviour.2.1 true .x86_64 .Avx2 true [7] [] 1 0
      (Or.inr rfl)
  · exact zero_dim_dispatch_behaviour.2.2 64 true .x86_64 .Avx2 true [] [1] [5]
      0 1 1 (by decide) (Or.inl rfl)

/-! ## Association-list lemmas -/

lemma alookup_aremove_self {β : Type} (k : String) (m : List (String × β)) :
    alookup k (aremove k m) = none := by
  induction m with
  | nil => rfl
  | cons p t ih =>
    by_cases h : p.1 = k
    · simpa [aremove, h] using ih
    · simpa [aremove, alookup, h] using ih

lemma alookup_aremove_ne {β : Type} (k k' : String) (m : List (String × β))
    (h : k' ≠ k) : alookup k (aremove k' m) = alookup k m := by
  induction m with
  | nil => rfl
  | cons p t ih =>
    by_cases hp : p.1 = k'
    · have hdrop : aremove k' (p :: t) = aremove k' t := by
        simp [aremove, hp]
      have hpk : p.1 ≠ k := by
        rw [hp]
        exact h
      rw [hdrop, ih]
      simp [alookup, hpk]
    · have hkeep : aremove k' (p :: t) = p :: aremove k' t := by
        simp [aremove, hp]
      rw [hkeep]
      by_cases hk : p.1 = k
      · simp [alookup, hk]
      · simp [alookup, hk, ih]

lemma alookup_removeKeys_none {β : Type} (k : String) (keys : List String)
    (m : List (String × β)) (h : alookup k m = none) :
    alookup k (removeKeys keys m) = none := by
  induction keys generalizing m with
  | nil => exact h
  | cons k' t ih =>
    refine ih (aremove k' m) ?_
    by_cases hk : k' = k
    · subst hk
      exact alookup_aremove_self k' m
    · rw [alookup_aremove_ne k k' m hk]
      exact h

lemma alookup_removeKeys_mem {β : Type} (k : String) (keys : List String)
    (m : List (String × β)) (h : k ∈ keys) :
    alookup k (removeKeys keys m) = none := by
  induction keys generalizing m with
  | nil => cases h
  | cons k' t ih =>
    rcases List.mem_cons.mp h with h' | h'
    · subst h'
      exact alookup_removeKeys_none k t (aremove k m) (alookup_aremove_self k m)
    · exact ih (aremove k' m) h'

lemma removeKeys_cons {β : Type} (k' : String) (t : List String)
    (m : List (String × β)) :
    removeKeys (k' :: t) m = removeKeys t (aremove k' m) := rfl

lemma alookup_removeKeys_not_mem {β : Type} (k : String) (keys : List String)
    (m : List (String × β)) (h : k ∉ keys) :
    alookup k (removeKeys keys m) = alookup k m := by
  induction keys generalizing m with
  | nil => rfl
  | cons k' t ih =>
    have hne : k' ≠ k := fun hk => h (hk ▸ List.mem_cons_self k' t)
    have ht : k ∉ t := fun hk => h (List.mem_cons_of_mem k' hk)
    rw [removeKeys_cons, ih (aremove k' m) ht, alookup_aremove_ne k k' m hne]

lemma alookup_eq_none_iff {β : Type} (k : String) (m : List (String × β)) :
    alookup k m = none ↔ k ∉ m.map Prod.fst := by
  induction m with
  | nil => simp [alookup]
  | cons p t ih =>
    by_cases h : p.1 = k
    · simp [alookup, h]
    · simp [alookup, h, ih, Ne.symm h]

lemma alookup_of_mem_nodup {β : Type} (k : String) (v : β)
    (m : List (String × β)) (hnd : (m.map Prod.fst).Nodup)
    (hmem : (k, v) ∈ m) : alookup k m = some v := by
  induction m with
  | nil => cases hmem
  | cons p t ih =>
    rcases List.mem_cons.mp hmem with h' | h'
    · subst h'
      simp [alookup]
    · have hk : k ∈ t.map Prod.fst := List.mem_map_of_mem Prod.fst h'
      have hp : p.1 ∉ t.map Prod.fst := (List.nodup_cons.mp hnd).1
      have hne : p.1 ≠ k := fun he => hp (he ▸ hk)
      simpa [alookup, hne] using ih (List.nodup_cons.mp hnd).2 h'

/-! ## Claims about the garbage collector -/

/-- C8: starting from a fresh collector with threshold `t`, after
`inc_ref k; inc_ref k; dec_ref k; dec_ref k` the pending list is `[k]`, so
the next `collect_garbage` returns `k` (and removes it from the table)
exactly when the pending length `1` has reached the threshold, and
`force_collect` returns and removes `k` immediately, for every threshold. -/
theorem gc_two_inc_two_dec (t : ℕ) :
    ("k" ∈ (GarbageCollector.collect_garbage
        (((((GarbageCollector.new t).inc_ref "k").inc_ref "k").dec_ref
          "k").dec_ref "k")).1 ↔ t ≤ 1) ∧
      (t ≤ 1 → alookup "k" (GarbageCollector.collect_garbage
        (((((GarbageCollector.new t).inc_ref "k").inc_ref "k").dec_ref
          "k").dec_ref "k")).2.refCounts = none) ∧
      "k" ∈ (GarbageCollector.force_collect
        (((((GarbageCollector.new t).inc_ref "k").inc_ref "k").dec_ref
          "k").dec_ref "k")).1 ∧
      alookup "k" (GarbageCollector.force_collect
        (((((GarbageCollector.new t).inc_ref "k").inc_ref "k").dec_ref
          "k").dec_ref "k")).2.refCounts = none := by
  have hgc : (((((GarbageCollector.new t).inc_ref "k").inc_ref "k").dec_ref
      "k").dec_ref "k") = ⟨[("k", 0)], ["k"], t⟩ := rfl
  rw [hgc]
  by_cases h : t ≤ 1 <;>
    simp [GarbageCollector.collect_garbage, GarbageCollector.force_collect,
      removeKeys, aremove, alookup, h]

/-- C8 witness: the scenario of `gc_two_inc_two_dec` at threshold 1, where the
pending length reaches the threshold. -/
theorem gc_two_inc_two_dec_witness :
    ("k" ∈ (((((GarbageCollector.new 1).inc_ref "k").inc_ref "k").dec_ref
        "k").dec_ref "k").collect_garbage.1) ∧
      alookup "k" (((((GarbageCollector.new 1).inc_ref "k").inc_ref
        "k").dec_ref "k").dec_ref "k").collect_garbage.2.refCounts = none ∧
      ("k" ∈ (((((GarbageCollector.new 1).inc_ref "k").inc_ref "k").dec_ref
        "k").dec_ref "k").force_collect.1) ∧
      alookup "k" (((((GarbageCollector.new 1).inc_ref "k").inc_ref
        "k").dec_ref "k").dec_ref "k").force_collect.2.refCounts = none := by
  have h := gc_two_inc_two_dec 1
  exact ⟨h.1.mpr (by decide), h.2.1 (by decide), h.2.2.1, h.2.2.2⟩

/-- C9: a key sitting in the pending list is not re-validated against its
current count — once the threshold is met, `collect_garbage` returns it and
removes it from the reference table even if its count has been re-incremented
to a positive value; `force_collect`, by contrast, leaves a key with a
positive current count untouched (it removes only zero-count keys). -/
theorem gc_pending_not_revalidated (gc : GarbageCollector) (k : String)
    (hnd : (gc.refCounts.map Prod.fst).Nodup)
    (hmem : k ∈ gc.markedForGc)
    (hthr : gc.collectionThreshold ≤ gc.markedForGc.length)
    (c : ℕ) (hc : alookup k gc.refCounts = some c) (hpos : 0 < c) :
    (k ∈ gc.collect_garbage.1 ∧
        alookup k gc.collect_garbage.2.refCounts = none) ∧
      k ∉ gc.force_collect.1 ∧
      alookup k gc.force_collect.2.refCounts = some c := by
  constructor
  · constructor
    · simpa [GarbageCollector.collect_garbage, hthr] using hmem
    · simp only [GarbageCollector.collect_garbage, hthr, if_pos]
      exact alookup_removeKeys_mem k gc.markedForGc gc.refCounts hmem
  · have hnotin : k ∉ (gc.refCounts.filter (fun p => p.2 == 0)).map Prod.fst := by
      intro hk
      rcases List.mem_map.mp hk with ⟨p, hp, hpk⟩
      rcases List.mem_filter.mp hp with ⟨hpm, hp0⟩
      have hz : p.2 = 0 := by simpa using hp0
      have : alookup k gc.refCounts = some p.2 := by
        rw [← hpk]
        exact alookup_of_mem_nodup p.1 p.2 gc.refCounts hnd (by simpa using hpm)
      rw [hc] at this
      have : c = p.2 := by injection this
      omega
    constructor
    · simpa [GarbageCollector.force_collect] using hnotin
    · simp only [GarbageCollector.force_collect]
      rw [alookup_removeKeys_not_mem k _ gc.refCounts hnotin]
      exact hc

/-- C9 witness: `inc_ref k; dec_ref k; inc_ref k` with threshold 1 — the key
is pending with a re-incremented count of 1; `collect_garbage` still removes
it while `force_collect` keeps it. -/
theorem gc_pending_not_revalidated_witness :
    ("k" ∈ ((((GarbageCollector.new 1).inc_ref "k").dec_ref "k").inc_ref
        "k").collect_garbage.1 ∧
      alookup "k" ((((GarbageCollector.new 1).inc_ref "k").dec_ref
        "k").inc_ref "k").collect_garbage.2.refCounts = none) ∧
      "k" ∉ ((((GarbageCollector.new 1).inc_ref "k").dec_ref "k").inc_ref
        "k").force_collect.1 ∧
      alookup "k" ((((GarbageCollector.new 1).inc_ref "k").dec_ref
        "k").inc_ref "k").force_collect.2.refCounts = some 1 := by
  exact gc_pending_not_revalidated
    ((((GarbageCollector.new 1).inc_ref "k").dec_ref "k").inc_ref "k") "k"
    (by decide) (by decide) (by decide) 1 (by decide) (by decide)

/-! ## Claims about the memory pool and manager statistics -/

lemma rustResize_nil {α : Type} (n : ℕ) (v : α) :
    rustResize ([] : List α) n v = List.replicate n v := by
  unfold rustResize
  split
  · rename_i h
    have hn : n = 0 := Nat.le_zero.mp (by simpa using h)
    subst hn
    rfl
  · simp

/-- C10: `MemoryPool::allocate(size)` always returns `Ok` with a buffer of
exactly `size` elements, all zero — on the free-list-reuse path the popped
buffer is cleared before being resized (never truncated in place), and the
fresh path builds a zeroed vector directly. -/
theorem pool_allocate_zeroed {T : Type} [Zero T] (p : MemoryPool T)
    (size : ℕ) :
    ∃ (buf : List T) (p' : MemoryPool T),
      p.allocate size = (Except.ok buf, p') ∧ buf.length = size ∧
        ∀ x ∈ buf, x = 0 := by
  unfold MemoryPool.allocate
  cases hpop : vecPop p.available with
  | none =>
    refine ⟨List.replicate size 0, _, rfl, List.length_replicate size 0, ?_⟩
    intro x hx
    exact List.eq_of_mem_replicate hx
  | some pr =>
    refine ⟨rustResize (vecClear pr.2) size 0, _, rfl, ?_, ?_⟩
    · simp [vecClear, rustResize_nil]
    · intro x hx
      rw [vecClear, rustResize_nil] at hx
      exact List.eq_of_mem_replicate hx

lemma pools_foldl_counts {T : Type} (l : List (String × MemoryPool T))
    (a b : ℕ) :
    l.foldl (fun (p : ℕ × ℕ) kv =>
        (p.1 + kv.2.allocatedCount, p.2 + kv.2.available.length)) (a, b)
      = (a + (l.map (fun kv => kv.2.allocatedCount)).sum,
         b + (l.map (fun kv => kv.2.available.length)).sum) := by
  induction l generalizing a b with
  | nil => simp
  | cons p t ih =>
    simp only [List.foldl_cons, List.map_cons, List.sum_cons, ih,
      Prod.mk.injEq]
    constructor <;> omega

/-- C6 (amended): after `update_stats` (which runs after every allocate /
deallocate / reset / defragment call), the fragmentation ratio reported by
`get_stats` equals the number of free buffers across all pools divided by the
sum of the pools' outstanding `allocated_count` values — not by free plus
outstanding — and is `0.0` when that outstanding count is zero. -/
theorem update_stats_fragmentation (T : Type) (sz : ℕ) (mm : MemoryManager T) :
    (MemoryManager.update_stats sz mm).get_stats.fragmentationRatio =
      (if (mm.pools.map (fun kv => kv.2.allocatedCount)).sum = 0 then 0
       else ((mm.pools.map (fun kv => kv.2.available.length)).sum : ℚ) /
         ((mm.pools.map (fun kv => kv.2.allocatedCount)).sum : ℚ)) := by
  simp only [MemoryManager.update_stats, MemoryManager.get_stats,
    pools_foldl_counts, Nat.zero_add]
  by_cases h : (mm.pools.map (fun kv => kv.2.allocatedCount)).sum = 0
  · simp [h]
  · simp [h, Nat.pos_of_ne_zero h]
    rfl

/-- C6 counterexample: create a pool, allocate one buffer, deallocate it.
The state now has one free buffer and zero outstanding buffers, so the claim's
formula (free ÷ (free + outstanding)) gives `1`, but `get_stats` reports a
fragmentation ratio of `0` — the source divides by the outstanding
`allocated_count` sum only, which is zero here. -/
theorem fragmentation_ratio_cex :
    ((MemoryManager.allocate 4 ((MemoryManager.new (T := ℤ)).create_pool "p"
        64) "p" 1).toOption.bind
      (fun r => (MemoryManager.deallocate 4 r.2 "p" r.1).toOption)).map
        (fun mm2 =>
          (mm2.get_stats.fragmentationRatio, fragmentationRatioSpec mm2))
      = some (0, 1) ∧ (0 : ℚ) ≠ 1 := by
  constructor
  · norm_num [MemoryManager.allocate, MemoryManager.deallocate,
      MemoryManager.new, MemoryManager.create_pool, MemoryPool.new,
      MemoryPool.allocate, MemoryPool.deallocate, MemoryManager.update_stats,
      MemoryManager.get_stats, fragmentationRatioSpec, alookup, ainsert,
      vecPop, Except.toOption]
  · norm_num

/-! ## SmartCache invariant lemmas -/

/-- Total byte size of the cached tensors (`Σ data.len() * size_of::<T>()`). -/
def cacheBytes {T : Type} (sz : ℕ) (l : List (String × CachedTensor T)) : ℕ :=
  (l.map (fun p => p.2.data.length * sz)).sum

/-- The structural invariant every reachable `SmartCache` state enjoys:
`current_size` is the sum of the cached entries' byte sizes, and the map's
keys are unique (as a `HashMap`'s are). -/
def CacheInv {T : Type} (sz : ℕ) (c : SmartCache T) : Prop :=
  c.currentSize = cacheBytes sz c.cache ∧ (c.cache.map Prod.fst).Nodup

lemma ainsert_of_alookup_none {β : Type} (k : String) (v : β)
    (m : List (String × β)) (h : alookup k m = none) :
    ainsert k v m = m ++ [(k, v)] := by
  induction m with
  | nil => rfl
  | cons p t ih =>
    by_cases hp : p.1 = k
    · simp [alookup, hp] at h
    · simp only [alookup, if_neg hp] at h
      simp [ainsert, hp, ih h]

lemma map_fst_ainsert_of_some {β : Type} (k : String) (v w : β)
    (m : List (String × β)) (h : alookup k m = some w) :
    (ainsert k v m).map Prod.fst = m.map Prod.fst := by
  induction m with
  | nil => cases h
  | cons p t ih =>
    by_cases hp : p.1 = k
    · simp [ainsert, hp]
    · simp only [alookup, if_neg hp] at h
      simp [ainsert, hp, ih h]

lemma bytes_ainsert_of_some {T : Type} (sz : ℕ) (k : String)
    (v w : CachedTensor T) (m : List (String × CachedTensor T))
    (h : alookup k m = some w) :
    cacheBytes sz (ainsert k v m) + w.data.length * sz =
      cacheBytes sz m + v.data.length * sz := by
  induction m with
  | nil => cases h
  | cons p t ih =>
    by_cases hp : p.1 = k
    · have hw : w = p.2 := by
        simp [alookup, hp] at h
        exact h.symm
      subst hw
      simp [ainsert, hp, cacheBytes]
      omega
    · simp only [alookup, if_neg hp] at h
      have := ih h
      simp only [ainsert, if_neg hp, cacheBytes, List.map_cons,
        List.sum_cons] at *
      omega

lemma le_bytes_of_alookup_some {T : Type} (sz : ℕ) (k : String)
    (w : CachedTensor T) (m : List (String × CachedTensor T))
    (h : alookup k m = some w) : w.data.length * sz ≤ cacheBytes sz m := by
  induction m with
  | nil => cases h
  | cons p t ih =>
    by_cases hp : p.1 = k
    · have hw : w = p.2 := by
        simp [alookup, hp] at h
        exact h.symm
      subst hw
      simp [cacheBytes]
    · simp only [alookup, if_neg hp] at h
      have := ih h
      simp only [cacheBytes, List.map_cons, List.sum_cons] at *
      omega

lemma aremove_of_not_mem {β : Type} (k : String) (m : List (String × β))
    (h : k ∉ m.map Prod.fst) : aremove k m = m := by
  induction m with
  | nil => rfl
  | cons p t ih =>
    have hp : p.1 ≠ k := by
      intro he
      exact h (by simp [he])
    have ht : k ∉ t.map Prod.fst := by
      intro hm
      exact h (by simp [hm])
    simp [aremove, hp, ih ht]
    simpa [aremove] using ih ht

lemma bytes_aremove_of_some {T : Type} (sz : ℕ) (k : String)
    (w : CachedTensor T) (m : List (String × CachedTensor T))
    (hnd : (m.map Prod.fst).Nodup) (h : alookup k m = some w) :
    cacheBytes sz m = cacheBytes sz (aremove k m) + w.data.length * sz := by
  induction m with
  | nil => cases h
  | cons p t ih =>
    have hnd' := List.nodup_cons.mp hnd
    by_cases hp : p.1 = k
    · have hw : w = p.2 := by
        simp [alookup, hp] at h
        exact h.symm
      subst hw
      have hknot : k ∉ t.map Prod.fst := hp ▸ hnd'.1
      have : aremove k (p :: t) = t := by
        simp only [aremove, List.filter]
        rw [show (p.1 != k) = false by simp [hp]]
        exact aremove_of_not_mem k t hknot
      rw [this]
      simp [cacheBytes]
      omega
    · simp only [alookup, if_neg hp] at h
      have hrec := ih hnd'.2 h
      have hkeep : aremove k (p :: t) = p :: aremove k t := by
        simp [aremove, hp]
      rw [hkeep]
      simp only [cacheBytes, List.map_cons, List.sum_cons] at *
      omega

lemma nodup_aremove {β : Type} (k : String) (m : List (String × β))
    (hnd : (m.map Prod.fst).Nodup) : ((aremove k m).map Prod.fst).Nodup := by
  have hsub : ((aremove k m).map Prod.fst).Sublist (m.map Prod.fst) :=
    (List.filter_sublist m).map Prod.fst
  exact hnd.sublist hsub

lemma SmartCache.evict_maxSize {T : Type} (sz : ℕ) (c : SmartCache T) :
    (SmartCache.evict_lru sz c).maxSize = c.maxSize := by
  unfold SmartCache.evict_lru
  split
  · rfl
  · split <;> rfl

lemma inv_get {T : Type} (sz : ℕ) (c : SmartCache T) (key : String)
    (hinv : CacheInv sz c) : CacheInv sz (SmartCache.get c key).2 := by
  unfold SmartCache.get
  cases h : alookup key c.cache with
  | none => exact hinv
  | some tensor =>
    constructor
    · have hb := bytes_ainsert_of_some sz key
        { tensor with accessCount := tensor.accessCount + 1 } tensor c.cache h
      simp only at hb
      have : cacheBytes sz (ainsert key
          { tensor with accessCount := tensor.accessCount + 1 } c.cache)
          = cacheBytes sz c.cache := by omega
      simpa [this] using hinv.1
    · simpa [map_fst_ainsert_of_some key _ tensor c.cache h] using hinv.2

lemma inv_evict {T : Type} (sz : ℕ) (c : SmartCache T)
    (hinv : CacheInv sz c) : CacheInv sz (SmartCache.evict_lru sz c) := by
  unfold SmartCache.evict_lru
  split
  · exact hinv
  · rename_i lruKey rest hh
    split
    · rename_i tensor ha
      refine ⟨?_, ?_⟩
      · show c.currentSize - tensor.data.length * sz
          = cacheBytes sz (aremove lruKey c.cache)
        have hb := bytes_aremove_of_some sz lruKey tensor c.cache hinv.2 ha
        have h1 := hinv.1
        omega
      · show ((aremove lruKey c.cache).map Prod.fst).Nodup
        exact nodup_aremove lruKey c.cache hinv.2
    · exact hinv

lemma evictLoop_spec {T : Type} (sz tsize : ℕ) (fuel : ℕ)
    (c c' : SmartCache T)
    (h : SmartCache.evictLoop sz tsize fuel c = some c')
    (hinv : CacheInv sz c) :
    CacheInv sz c' ∧ c'.maxSize = c.maxSize ∧
      (c'.currentSize + tsize ≤ c'.maxSize ∨ c'.cache.isEmpty = true) := by
  induction fuel generalizing c with
  | zero =>
    unfold SmartCache.evictLoop at h
    split at h
    · cases h
    · rename_i hcond
      injection h with h
      subst h
      refine ⟨hinv, rfl, ?_⟩
      rcases not_and_or.mp hcond with h1 | h2
      · left
        omega
      · right
        simpa using h2
  | succ fuel ih =>
    unfold SmartCache.evictLoop at h
    split at h
    · split at h
      · have hrec := ih (SmartCache.evict_lru sz c) h (inv_evict sz c hinv)
        exact ⟨hrec.1, hrec.2.1.trans (SmartCache.evict_maxSize sz c),
          hrec.2.2⟩
      · cases h
    · rename_i hcond
      injection h with h
      subst h
      refine ⟨hinv, rfl, ?_⟩
      rcases not_and_or.mp hcond with h1 | h2
      · left
        omega
      · right
        simpa using h2

lemma inv_put {T : Type} (sz : ℕ) (c : SmartCache T) (key : String)
    (data : List T) (shape : List ℕ) (prio : CachePriority)
    (c' : SmartCache T)
    (h : SmartCache.put sz c key data shape prio = some c')
    (hinv : CacheInv sz c) : CacheInv sz c' := by
  unfold SmartCache.put at h
  cases hl : SmartCache.evictLoop sz (data.length * sz)
      c.accessHistory.length c with
  | none =>
    rw [hl] at h
    cases h
  | some c1 =>
    rw [hl] at h
    injection h with h
    subst h
    obtain ⟨⟨hbytes, hnd⟩, hmax, hcond⟩ :=
      evictLoop_spec sz (data.length * sz) _ c c1 hl hinv
    cases halo : alookup key c1.cache with
    | none =>
      have happ := ainsert_of_alookup_none key ⟨data, shape, 0, prio⟩
        c1.cache halo
      have hknot : key ∉ c1.cache.map Prod.fst :=
        (alookup_eq_none_iff key c1.cache).mp halo
      refine ⟨?_, ?_⟩
      · show c1.currentSize + data.length * sz
          = cacheBytes sz (ainsert key ⟨data, shape, 0, prio⟩ c1.cache)
        rw [happ]
        simp [cacheBytes, hbytes]
      · show ((ainsert key ⟨data, shape, 0, prio⟩ c1.cache).map
            Prod.fst).Nodup
        rw [happ, List.map_append]
        refine List.Nodup.append hnd (List.nodup_singleton key) ?_
        intro a ha hb
        simp only [List.map_cons, List.map_nil, List.mem_singleton] at hb
        exact hknot (hb ▸ ha)
    | some old =>
      have hb := bytes_ainsert_of_some sz key ⟨data, shape, 0, prio⟩ old
        c1.cache halo
      have hle := le_bytes_of_alookup_some sz key old c1.cache halo
      refine ⟨?_, ?_⟩
      · show c1.currentSize - old.data.length * sz + data.length * sz
          = cacheBytes sz (ainsert key ⟨data, shape, 0, prio⟩ c1.cache)
        simp only at hb
        omega
      · show ((ainsert key ⟨data, shape, 0, prio⟩ c1.cache).map
            Prod.fst).Nodup
        rw [map_fst_ainsert_of_some key ⟨data, shape, 0, prio⟩ old
          c1.cache halo]
        exact hnd

lemma runCacheOps_inv {T : Type} (sz : ℕ) (ops : List (CacheOp T))
    (c0 c : SmartCache T) (h : runCacheOps sz c0 ops = some c)
    (hinv : CacheInv sz c0) : CacheInv sz c := by
  induction ops generalizing c0 with
  | nil =>
    unfold runCacheOps at h
    injection h with h
    subst h
    exact hinv
  | cons op rest ih =>
    cases op with
    | get key =>
      unfold runCacheOps at h
      exact ih _ h (inv_get sz c0 key hinv)
    | put key data shape prio =>
      unfold runCacheOps at h
      cases hp : SmartCache.put sz c0 key data shape prio with
      | none =>
        rw [hp] at h
        cases h
      | some c1 =>
        rw [hp] at h
        exact ih c1 h (inv_put sz c0 key data shape prio c1 hp hinv)

lemma cacheReachable_inv {T : Type} (sz : ℕ) (c : SmartCache T)
    (h : CacheReachable sz c) : CacheInv sz c := by
  obtain ⟨maxSize, ops, hrun⟩ := h
  exact runCacheOps_inv sz ops _ c hrun ⟨rfl, List.nodup_nil⟩

/-! ## Claims about the tensor cache -/

/-- C4 counterexample: a single `put` of an 8-byte tensor (two `f32`) into a
fresh cache with a 4-byte budget completes — the eviction loop exits because
the cache is empty — and leaves `current_size = 8 > max_size = 4`. -/
theorem cache_put_exceeds_budget :
    (SmartCache.put 4 (SmartCache.new (T := ℤ) 4) "a" [1, 2] [] .normal).map
      (fun c' => decide (c'.currentSize ≤ c'.maxSize)) = some false := by
  rfl

/-- C4 (amended): on every reachable cache state, a `put` that completes and
whose tensor byte size (`data.len() * size_of::<T>()`) does not itself exceed
the byte budget leaves `current_size ≤ max_size`; an oversized single tensor
(see the counterexample) or a diverging eviction loop are the only escapes. -/
theorem cache_put_within_budget {T : Type} (sz : ℕ) (c : SmartCache T)
    (hreach : CacheReachable sz c) (key : String) (data : List T)
    (shape : List ℕ) (prio : CachePriority) (c' : SmartCache T)
    (hput : SmartCache.put sz c key data shape prio = some c')
    (hsize : data.length * sz ≤ c.maxSize) :
    c'.currentSize ≤ c'.maxSize := by
  have hinv := cacheReachable_inv sz c hreach
  unfold SmartCache.put at hput
  cases hl : SmartCache.evictLoop sz (data.length * sz)
      c.accessHistory.length c with
  | none =>
    rw [hl] at hput
    cases hput
  | some c1 =>
    rw [hl] at hput
    injection hput with hput
    subst hput
    obtain ⟨⟨hbytes, hnd⟩, hmax, hcond⟩ :=
      evictLoop_spec sz (data.length * sz) _ c c1 hl hinv
    show (match alookup key c1.cache with
          | some oldTensor => c1.currentSize - oldTensor.data.length * sz
          | none => c1.currentSize) + data.length * sz ≤ c1.maxSize
    rcases hcond with hle | hemp
    · cases halo : alookup key c1.cache with
      | none =>
        simp only [halo]
        omega
      | some old =>
        simp only [halo]
        have hsub : c1.currentSize - old.data.length * sz ≤ c1.currentSize :=
          Nat.sub_le _ _
        omega
    · have hnil : c1.cache = [] := by
        simpa [List.isEmpty_iff] using hemp
      have hzero : c1.currentSize = 0 := by
        rw [hbytes, hnil]
        rfl
      rw [hnil]
      simp only [alookup, hzero, Nat.zero_add]
      omega

/-- C4 witness: the amended theorem applied to a fresh 16-byte cache and a
4-byte tensor. -/
theorem cache_put_within_budget_witness :
    SmartCache.put 4 (SmartCache.new (T := ℤ) 16) "a" [1] [] .normal
        = some ⟨[("a", ⟨[1], [], 0, .normal⟩)], 16, 4, ["a"], 0, 0⟩ ∧
      (⟨[("a", ⟨[1], [], 0, .normal⟩)], 16, 4, ["a"], 0, 0⟩ :
          SmartCache ℤ).currentSize
        ≤ (⟨[("a", ⟨[1], [], 0, .normal⟩)], 16, 4, ["a"], 0, 0⟩ :
          SmartCache ℤ).maxSize := by
  constructor
  · rfl
  · exact cache_put_within_budget 4 (SmartCache.new 16) ⟨16, [], rfl⟩ "a" [1]
      [] .normal _ rfl (by decide)

/-- C5: `SmartCache::put` does NOT terminate on every reachable state. After
`put "a"; put "a"` the access history holds two copies of `"a"` while the map
holds one entry; a later eviction removes the entry together with only the
first history copy, leaving a stale `"a"` at the history front. The next
eviction the budget requires then finds the stale head, removes nothing and
thus makes no progress, so the `while` loop in `put` spins forever — here
from the fresh 16-byte cache via `put "a" (4 B); put "a" (4 B); put "b"
(4 B); put "c" (16 B)` (the final `put` diverges, `none`). -/
theorem cache_put_diverges_on_stale_history :
    runCacheOps 4 (SmartCache.new (T := ℤ) 16)
      [.put "a" [1] [] .normal, .put "a" [1] [] .normal,
       .put "b" [1] [] .normal, .put "c" [1, 2, 3, 4] [] .normal] = none := by
  rfl
